import Mathlib

/-!
Shallow embedding of `src/main.py` (`process_vocals_for_phonk`), a single
linear audio pipeline: load, estimate tempo, time-stretch, pitch-shift,
quantize to 16-bit, normalize, export to a WAV container.

The script's own logic (the stretch-rate formula, the `* 32767` int16
quantization, the mono/16-bit/WAV export metadata, the try/except error
structure) is embedded from the source.  The bodies of the external library
routines (librosa's loader, beat tracker, time-stretch and pitch-shift,
pydub's normalize) are not part of the repository; those are modelled from
the specification's contracts, and each such definition says so in its doc
comment.
-/

namespace Phonk

/-- Modelled from the spec: the outcome of `librosa.load` on the input path,
which is external library code.  The loader either fails with a
file-not-found condition, fails with a generic decode error, or produces a
mono floating-point sample buffer together with its native sampling rate.
Samples are represented as rationals. -/
inductive LoadResult where
  | notFound
  | decodeError
  | decoded (y : List ℚ) (sr : ℕ)
deriving DecidableEq

/-- One human-readable progress or error message printed by the script.
Each constructor stands for one of the `print` calls in
`process_vocals_for_phonk`, carrying the data interpolated into it. -/
inductive Msg where
  | start
  | loaded (sr : ℕ)
  | tempoEstimate (bpm : ℚ)
  | stretched (target : ℚ)
  | shifted (semitones : ℤ)
  | exporting (path : String)
  | complete
  | errNotFound (path : String)
  | errOther
deriving DecidableEq

/-- A mono sample buffer: the floating-point samples, the sampling rate they
are tagged with, and the cumulative pitch offset in semitones relative to
the loaded audio (0 when loaded; the spectral content of a pitch-shifted
buffer is represented by this offset, see `pitchShift`). -/
structure Buffer where
  samples : List ℚ
  sr : ℕ
  semitoneOffset : ℤ
deriving DecidableEq

/-- `stretch_ratio = original_tempo / target_bpm` from the source
(src/main.py line 57). -/
def stretchRate (original_tempo target_bpm : ℚ) : ℚ :=
  original_tempo / target_bpm

/-- Length of the time-stretched buffer: the input length divided by the
stretch rate, rounded to the nearest whole sample (per the spec's
time-stretch contract). -/
def stretchedLen (n : ℕ) (rate : ℚ) : ℕ :=
  (round ((n : ℚ) / rate)).toNat

/-- Modelled from the spec: the sample content of
`librosa.effects.time_stretch`, which is external library code.  The spec
fixes only the output length (input length times the inverse rate, to the
nearest sample) and pitch preservation; the concrete sample values of the
phase-vocoder are not specified.  They are represented here by
nearest-index resampling, which has the specified length and maps silent
input to silent output. -/
def stretchedSamples (y : List ℚ) (rate : ℚ) : List ℚ :=
  (List.range (stretchedLen y.length rate)).map
    (fun (i : ℕ) => y.getD (⌊(i * rate : ℚ)⌋).toNat 0)

/-- Modelled from the spec: `librosa.effects.time_stretch`, which is
external library code.  A non-positive rate is rejected (the underlying
transform's failure is surfaced, per the spec); a rate of 1 is a no-op
pass-through; otherwise the buffer is stretched to `stretchedLen`. -/
def timeStretch (y : List ℚ) (rate : ℚ) : Option (List ℚ) :=
  if rate ≤ 0 then none
  else if rate = 1 then some y
  else some (stretchedSamples y rate)

/-- Time-stretch lifted to a `Buffer`: the sampling rate and pitch offset
are untouched, only the samples are stretched. -/
def timeStretchBuf (b : Buffer) (rate : ℚ) : Option Buffer :=
  (timeStretch b.samples rate).map (fun ys => ⟨ys, b.sr, b.semitoneOffset⟩)

/-- Modelled from the spec: `librosa.effects.pitch_shift`, which is
external library code.  The spec fixes that the output has the same length
and sample rate, a semitone count of 0 is a no-op, and fundamental
frequencies are scaled by `2 ^ (n_steps / 12)`; the frequency content is
represented by accumulating the semitone offset. -/
def pitchShift (b : Buffer) (n_steps : ℤ) : Buffer :=
  { b with semitoneOffset := b.semitoneOffset + n_steps }

/-- Truncation of a rational toward zero, as the C-style float-to-integer
cast does. -/
def ratTrunc (q : ℚ) : ℤ :=
  if 0 ≤ q then ⌊q⌋ else ⌈q⌉

/-- `(x * 32767).astype(np.int16)` for one sample (src/main.py line 75):
scale by the format's maximum positive value, truncate toward zero, and
wrap modulo 2^16 into the int16 range, as numpy's C-style cast does. -/
def toInt16 (x : ℚ) : ℤ :=
  (ratTrunc (x * 32767) + 32768) % 65536 - 32768

/-- `y_shifted_int16 = (y_shifted * 32767).astype(np.int16)`
(src/main.py line 75). -/
def quantize (y : List ℚ) : List ℤ :=
  y.map toInt16

/-- The pydub `AudioSegment` the script builds: 16-bit integer data plus
frame rate, sample width (bytes) and channel count
(src/main.py lines 78-83). -/
structure AudioSegment where
  data : List ℤ
  frame_rate : ℕ
  sample_width : ℕ
  channels : ℕ
deriving DecidableEq

/-- The peak of a 16-bit sample list: the maximum absolute sample value
(0 for an empty or silent list). -/
def peak (s : List ℤ) : ℤ :=
  (s.map (fun x => |x|)).foldr max 0

/-- Modelled from the spec: the sample effect of pydub's
`AudioSegment.normalize`, which is external library code.  Peak
normalization scales every sample so that the loudest sample reaches (but
does not exceed) full scale, preserving relative dynamics; a silent
segment is returned unchanged. -/
def normalizeSamples (s : List ℤ) : List ℤ :=
  let p := peak s
  if p = 0 then s else s.map (fun x => x * 32767 / p)

/-- `processed_audio.normalize()` (src/main.py line 86): peak-normalize the
data, keeping format metadata. -/
def normalizeSeg (seg : AudioSegment) : AudioSegment :=
  { seg with data := normalizeSamples seg.data }

/-- The file written by `processed_audio.export(output_path, format="wav")`
(src/main.py line 90): container format, channel count, sample width,
frame rate and the sample data. -/
structure OutFile where
  path : String
  format : String
  channels : ℕ
  sample_width : ℕ
  frame_rate : ℕ
  data : List ℤ
deriving DecidableEq

/-- Observable outcome of one run of the script: the messages printed in
order, the output file written (if any), and whether an exception escaped
the function (the try/except at src/main.py lines 43-97 catches
`FileNotFoundError` and every other exception, so this is always
`false`). -/
structure RunOutcome where
  messages : List Msg
  output : Option OutFile
  uncaughtException : Bool
deriving DecidableEq

/-- The pipeline `process_vocals_for_phonk` (src/main.py lines 31-97).
`load` is the outcome of `librosa.load` on the input file and `tempoOf`
stands for `librosa.beat.beat_track` (the spec treats the tempo estimate as
an unspecified best-effort heuristic of the buffer and its rate, so it is a
parameter of the model).  The stages follow the source: estimate tempo,
compute `stretch_ratio`, time-stretch, pitch-shift, quantize to int16,
wrap as a mono 16-bit segment at the loaded rate, normalize, export as
WAV.  Both error kinds are caught and reported as a message. -/
def process_vocals_for_phonk (load : LoadResult) (tempoOf : List ℚ → ℕ → ℚ)
    (input_path output_path : String) (target_bpm : ℚ) (pitch_shift : ℤ) :
    RunOutcome :=
  match load with
  | .notFound => ⟨[.start, .errNotFound input_path], none, false⟩
  | .decodeError => ⟨[.start, .errOther], none, false⟩
  | .decoded y sr =>
    let original_tempo := tempoOf y sr
    let rate := stretchRate original_tempo target_bpm
    match timeStretchBuf ⟨y, sr, 0⟩ rate with
    | none =>
        ⟨[.start, .loaded sr, .tempoEstimate original_tempo, .errOther],
         none, false⟩
    | some y_stretched =>
      let y_shifted := pitchShift y_stretched pitch_shift
      let seg : AudioSegment := ⟨quantize y_shifted.samples, y_shifted.sr, 2, 1⟩
      let processed_seg := normalizeSeg seg
      ⟨[.start, .loaded sr, .tempoEstimate original_tempo,
        .stretched target_bpm, .shifted pitch_shift,
        .exporting output_path, .complete],
       some ⟨output_path, "wav", processed_seg.channels,
             processed_seg.sample_width, processed_seg.frame_rate,
             processed_seg.data⟩,
       false⟩

/-- Indexing a list all of whose elements are zero (with default 0) gives 0. -/
lemma getD_zero_of_forall_zero {y : List ℚ} (h : ∀ x ∈ y, x = 0) (n : ℕ) :
    y.getD n 0 = 0 := by
  rw [List.getD_eq_getElem?_getD]
  cases hy : y[n]? with
  | none => rfl
  | some a => simpa using h a (List.getElem?_mem hy)

/-- Rounding a nonnegative rational is nonnegative. -/
lemma round_nonneg_of_nonneg {x : ℚ} (h : 0 ≤ x) : 0 ≤ round x := by
  rw [round_eq]
  exact Int.floor_nonneg.mpr (by linarith)

/-- For a positive rate, the stretched length is exactly the rounded
quotient, as an integer. -/
lemma stretchedLen_cast {n : ℕ} {rate : ℚ} (h : 0 < rate) :
    ((stretchedLen n rate : ℕ) : ℤ) = round ((n : ℚ) / rate) :=
  Int.toNat_of_nonneg
    (round_nonneg_of_nonneg (div_nonneg (Nat.cast_nonneg n) h.le))

lemma stretchedSamples_length (y : List ℚ) (rate : ℚ) :
    (stretchedSamples y rate).length = stretchedLen y.length rate := by
  rw [stretchedSamples, List.length_map, List.length_range]

lemma stretchedLen_one (n : ℕ) : stretchedLen n 1 = n := by
  simp [stretchedLen]

/-- A stretch rate of 1 leaves the samples unchanged. -/
lemma stretchedSamples_one (y : List ℚ) : stretchedSamples y 1 = y := by
  apply List.ext_getElem
  · rw [stretchedSamples_length, stretchedLen_one]
  · intro i h1 h2
    simp only [stretchedSamples, List.getElem_map, List.getElem_range, mul_one,
      Int.floor_natCast, Int.toNat_natCast]
    exact List.getD_eq_getElem y 0 h2

/-- For a positive rate, time-stretch succeeds and produces the stretched
samples. -/
lemma timeStretch_of_pos {rate : ℚ} (y : List ℚ) (h : 0 < rate) :
    timeStretch y rate = some (stretchedSamples y rate) := by
  unfold timeStretch
  rw [if_neg (not_le.mpr h)]
  by_cases h1 : rate = 1
  · subst h1
    rw [if_pos rfl, stretchedSamples_one]
  · rw [if_neg h1]

/-- Every sample is bounded in absolute value by the peak. -/
lemma abs_le_peak {s : List ℤ} {x : ℤ} (hx : x ∈ s) : |x| ≤ peak s := by
  induction s with
  | nil => cases hx
  | cons a t ih =>
    rcases List.mem_cons.mp hx with h | h
    · subst h
      exact le_max_left _ _
    · exact le_trans (ih h) (le_max_right _ _)

lemma peak_nonneg (s : List ℤ) : 0 ≤ peak s := by
  induction s with
  | nil => exact le_refl 0
  | cons a t ih => exact le_trans ih (le_max_right _ _)

/-- A bound on all samples bounds the peak. -/
lemma peak_le_of_forall {s : List ℤ} {B : ℤ} (hB : 0 ≤ B)
    (h : ∀ x ∈ s, |x| ≤ B) : peak s ≤ B := by
  induction s with
  | nil => exact hB
  | cons a t ih =>
    exact max_le (h a (List.mem_cons_self a t))
      (ih fun x hx => h x (List.mem_cons_of_mem a hx))

/-- A nonzero peak is attained by some sample. -/
lemma exists_abs_eq_peak {s : List ℤ} (h : peak s ≠ 0) :
    ∃ x ∈ s, |x| = peak s := by
  induction s with
  | nil => exact absurd rfl h
  | cons a t ih =>
    rcases le_total (peak t) |a| with hle | hle
    · refine ⟨a, List.mem_cons_self a t, ?_⟩
      exact (max_eq_left hle).symm
    · have hm : peak (a :: t) = peak t := max_eq_right hle
      rw [hm] at h ⊢
      obtain ⟨x, hx, he⟩ := ih h
      exact ⟨x, List.mem_cons_of_mem a hx, he⟩

lemma peak_eq_zero_of_forall_zero {s : List ℤ} (h : ∀ x ∈ s, x = 0) :
    peak s = 0 :=
  le_antisymm
    (peak_le_of_forall (le_refl 0) fun x hx => by rw [h x hx]; exact le_refl 0)
    (peak_nonneg s)

/-- Scaling a sample bounded by the (positive) peak keeps it within
full scale. -/
lemma scaled_abs_le {p x : ℤ} (hp : 0 < p) (hx : |x| ≤ p) :
    |x * 32767 / p| ≤ 32767 := by
  have hub : x * 32767 / p ≤ 32767 := by
    have h1 : x * 32767 ≤ 32767 * p := by nlinarith [abs_le.mp hx]
    calc x * 32767 / p ≤ 32767 * p / p := Int.ediv_le_ediv hp h1
    _ = 32767 := Int.mul_ediv_cancel 32767 hp.ne'
  have hlb : -32767 ≤ x * 32767 / p := by
    have h1 : (-32767) * p ≤ x * 32767 := by nlinarith [abs_le.mp hx]
    calc (-32767 : ℤ) = (-32767) * p / p := (Int.mul_ediv_cancel _ hp.ne').symm
    _ ≤ x * 32767 / p := Int.ediv_le_ediv hp h1
  exact abs_le.mpr ⟨hlb, hub⟩

lemma normalizeSamples_length (s : List ℤ) :
    (normalizeSamples s).length = s.length := by
  rw [normalizeSamples]
  by_cases h : peak s = 0
  · rw [if_pos h]
  · rw [if_neg h, List.length_map]

lemma normalizeSamples_of_silent {s : List ℤ} (h : ∀ x ∈ s, x = 0) :
    normalizeSamples s = s := by
  rw [normalizeSamples, if_pos (peak_eq_zero_of_forall_zero h)]

/-- After normalizing a segment with nonzero peak, every sample is within
full scale. -/
lemma normalizeSamples_abs_le {s : List ℤ} (h : peak s ≠ 0) :
    ∀ x ∈ normalizeSamples s, |x| ≤ 32767 := by
  intro x hx
  rw [normalizeSamples, if_neg h] at hx
  obtain ⟨a, ha, rfl⟩ := List.mem_map.mp hx
  exact scaled_abs_le (lt_of_le_of_ne (peak_nonneg s) (Ne.symm h)) (abs_le_peak ha)

/-- After normalizing a segment with nonzero peak, the maximum absolute
sample is exactly full scale. -/
lemma normalizeSamples_peak {s : List ℤ} (h : peak s ≠ 0) :
    peak (normalizeSamples s) = 32767 := by
  have hp : 0 < peak s := lt_of_le_of_ne (peak_nonneg s) (Ne.symm h)
  apply le_antisymm
  · exact peak_le_of_forall (by norm_num) (normalizeSamples_abs_le h)
  · obtain ⟨x, hx, he⟩ := exists_abs_eq_peak h
    have hmem : x * 32767 / peak s ∈ normalizeSamples s := by
      rw [normalizeSamples, if_neg h]
      exact List.mem_map.mpr ⟨x, hx, rfl⟩
    have habs : |x * 32767 / peak s| = 32767 := by
      rcases (abs_eq (peak_nonneg s)).mp he with hx1 | hx1
      · subst hx1
        rw [abs_of_nonneg (by positivity : (0:ℤ) ≤ peak s * 32767 / peak s)]
        rw [mul_comm]
        exact Int.mul_ediv_cancel 32767 hp.ne'
      · rw [hx1, show (-(peak s)) * 32767 = (-32767) * peak s by ring,
          Int.mul_ediv_cancel _ hp.ne']
        norm_num
    calc (32767 : ℤ) = |x * 32767 / peak s| := habs.symm
    _ ≤ peak (normalizeSamples s) := abs_le_peak hmem

/-- Truncation toward zero of a rational bounded by an integer `B` in
absolute value lies in `[-B, B]`. -/
lemma ratTrunc_bounds {q : ℚ} {B : ℤ} (h : |q| ≤ (B : ℚ)) :
    -B ≤ ratTrunc q ∧ ratTrunc q ≤ B := by
  have hB : (0 : ℤ) ≤ B := by
    have : (0 : ℚ) ≤ (B : ℚ) := le_trans (abs_nonneg q) h
    exact_mod_cast this
  rcases abs_le.mp h with ⟨h1, h2⟩
  rw [ratTrunc]
  by_cases h0 : 0 ≤ q
  · rw [if_pos h0]
    constructor
    · exact le_trans (by omega) (Int.floor_nonneg.mpr h0)
    · calc ⌊q⌋ ≤ ⌊(B : ℚ)⌋ := Int.floor_le_floor h2
      _ = B := Int.floor_intCast B
  · rw [if_neg h0]
    constructor
    · calc (-B : ℤ) = ⌈((-B : ℤ) : ℚ)⌉ := (Int.ceil_intCast _).symm
      _ ≤ ⌈q⌉ := Int.ceil_le_ceil (by push_cast; linarith)
    · calc ⌈q⌉ ≤ 0 := Int.ceil_le.mpr (by push_cast; linarith)
      _ ≤ B := hB

lemma toInt16_mem_range (x : ℚ) : -32768 ≤ toInt16 x ∧ toInt16 x ≤ 32767 := by
  rw [toInt16]
  have h1 : 0 ≤ (ratTrunc (x * 32767) + 32768) % 65536 :=
    Int.emod_nonneg _ (by norm_num)
  have h2 : (ratTrunc (x * 32767) + 32768) % 65536 < 65536 :=
    Int.emod_lt_of_pos _ (by norm_num)
  omega

lemma toInt16_modeq (x : ℚ) :
    toInt16 x ≡ ratTrunc (x * 32767) [ZMOD 65536] := by
  rw [toInt16, Int.ModEq]
  omega

/-- Within the nominal amplitude range `[-1, 1]` the cast does not wrap:
the quantized value is exactly the truncated scaled sample. -/
lemma toInt16_of_in_range {x : ℚ} (h1 : -1 ≤ x) (h2 : x ≤ 1) :
    toInt16 x = ratTrunc (x * 32767) := by
  have hb : |x * 32767| ≤ ((32767 : ℤ) : ℚ) := by
    rw [abs_mul, show |(32767 : ℚ)| = 32767 by norm_num]
    push_cast
    nlinarith [abs_le.mpr ⟨h1, h2⟩, abs_nonneg x]
  obtain ⟨hl, hr⟩ := ratTrunc_bounds hb
  rw [toInt16, Int.emod_eq_of_lt (by omega) (by omega)]
  omega

lemma toInt16_zero : toInt16 0 = 0 := by
  have h : ratTrunc ((0 : ℚ) * 32767) = 0 := by
    rw [ratTrunc, if_pos (by norm_num)]
    norm_num
  rw [toInt16, h]
  decide

lemma quantize_length (y : List ℚ) : (quantize y).length = y.length :=
  List.length_map y toInt16

lemma quantize_mem_range (y : List ℚ) :
    ∀ z ∈ quantize y, -32768 ≤ z ∧ z ≤ 32767 := by
  intro z hz
  obtain ⟨x, _, rfl⟩ := List.mem_map.mp hz
  exact toInt16_mem_range x

lemma quantize_silent {y : List ℚ} (h : ∀ x ∈ y, x = 0) :
    ∀ z ∈ quantize y, z = 0 := by
  intro z hz
  obtain ⟨x, hx, rfl⟩ := List.mem_map.mp hz
  rw [h x hx]
  exact toInt16_zero

/-- On a successfully decoded input with a positive stretch rate, the run
reduces to the explicit success outcome: the seven progress messages and
the exported normalized, quantized, stretched data as a mono 16-bit WAV
file at the loaded sample rate. -/
lemma process_decoded_eq (y : List ℚ) (sr : ℕ) (tempoOf : List ℚ → ℕ → ℚ)
    (ip op : String) (tb : ℚ) (ps : ℤ)
    (h : 0 < stretchRate (tempoOf y sr) tb) :
    process_vocals_for_phonk (.decoded y sr) tempoOf ip op tb ps =
      ⟨[.start, .loaded sr, .tempoEstimate (tempoOf y sr), .stretched tb,
        .shifted ps, .exporting op, .complete],
       some ⟨op, "wav", 1, 2, sr,
         normalizeSamples
           (quantize (stretchedSamples y (stretchRate (tempoOf y sr) tb)))⟩,
       false⟩ := by
  simp only [process_vocals_for_phonk, timeStretchBuf]
  rw [timeStretch_of_pos _ h]
  rfl

/-- Claim C1: when the input path does not resolve to an existing file, the
run reports the distinct not-found message for that path, produces no
output file, and terminates normally with no uncaught exception. -/
theorem missing_input_reports_not_found_and_no_output
    (tempoOf : List ℚ → ℕ → ℚ) (ip op : String) (tb : ℚ) (ps : ℤ) :
    (process_vocals_for_phonk .notFound tempoOf ip op tb ps).messages
        = [Msg.start, Msg.errNotFound ip] ∧
    (process_vocals_for_phonk .notFound tempoOf ip op tb ps).output = none ∧
    (process_vocals_for_phonk .notFound tempoOf ip op tb ps).uncaughtException
        = false :=
  ⟨rfl, rfl, rfl⟩

/-- Claim C3: for positive estimated tempo and positive target BPM, the
stretch rate is `original_tempo / target_bpm`, the time-stretch step
succeeds, keeps the sampling rate, and produces a buffer whose length is
the input length times the inverse rate up to rounding to the nearest
whole sample. -/
theorem stretch_rate_formula_and_length (y : List ℚ) (sr : ℕ)
    (tempo tb : ℚ) (ht : 0 < tempo) (htb : 0 < tb) :
    stretchRate tempo tb = tempo / tb ∧
    ∃ b : Buffer,
      timeStretchBuf ⟨y, sr, 0⟩ (stretchRate tempo tb) = some b ∧
      b.sr = sr ∧
      |((b.samples.length : ℕ) : ℚ) - (y.length : ℚ) / stretchRate tempo tb|
        ≤ 1 / 2 := by
  have hr : 0 < stretchRate tempo tb := div_pos ht htb
  refine ⟨rfl, ⟨stretchedSamples y (stretchRate tempo tb), sr, 0⟩, ?_, rfl, ?_⟩
  · rw [timeStretchBuf]
    rw [show (⟨y, sr, 0⟩ : Buffer).samples = y from rfl,
      timeStretch_of_pos _ hr]
    rfl
  · rw [show (⟨stretchedSamples y (stretchRate tempo tb), sr, 0⟩ :
        Buffer).samples = stretchedSamples y (stretchRate tempo tb) from rfl,
      stretchedSamples_length]
    have h1 : ((stretchedLen y.length (stretchRate tempo tb) : ℕ) : ℚ)
        = ((round ((y.length : ℚ) / stretchRate tempo tb) : ℤ) : ℚ) := by
      exact_mod_cast stretchedLen_cast hr
    rw [h1, abs_sub_comm]
    exact abs_sub_round _

/-- Witness for C3 at a concrete input: a 4-sample buffer, estimated tempo
130 BPM, target 65 BPM. -/
theorem stretch_rate_formula_and_length_witness :
    (0 : ℚ) < 130 ∧ (0 : ℚ) < 65 ∧
    (stretchRate 130 65 = 130 / 65 ∧
     ∃ b : Buffer,
       timeStretchBuf ⟨[1, 0, 1, 0], 44100, 0⟩ (stretchRate 130 65) = some b ∧
       b.sr = 44100 ∧
       |((b.samples.length : ℕ) : ℚ)
           - (([1, 0, 1, 0] : List ℚ).length : ℚ) / stretchRate 130 65|
         ≤ 1 / 2) :=
  ⟨by norm_num, by norm_num,
    stretch_rate_formula_and_length [1, 0, 1, 0] 44100 130 65
      (by norm_num) (by norm_num)⟩

/-- Claim C4: pitch-shifting preserves the buffer length and sampling rate,
and scales the represented fundamental-frequency ratio by
`2 ^ (n_steps / 12)`. -/
theorem pitch_shift_preserves_length_rate_scales_freq (b : Buffer) (n : ℤ) :
    (pitchShift b n).samples.length = b.samples.length ∧
    (pitchShift b n).sr = b.sr ∧
    (2 : ℝ) ^ (((pitchShift b n).semitoneOffset : ℝ) / 12)
      = (2 : ℝ) ^ ((n : ℝ) / 12) * (2 : ℝ) ^ ((b.semitoneOffset : ℝ) / 12) := by
  refine ⟨rfl, rfl, ?_⟩
  rw [show (pitchShift b n).semitoneOffset = b.semitoneOffset + n from rfl]
  rw [show ((b.semitoneOffset + n : ℤ) : ℝ) / 12
      = (n : ℝ) / 12 + (b.semitoneOffset : ℝ) / 12 by push_cast; ring]
  exact Real.rpow_add (by norm_num) _ _

/-- Claim C5: quantization maps each sample `x` to a value congruent to the
truncation of `x * 32767` modulo 2^16, always lying in the int16 range,
and equal to the plain truncation whenever `x` is within `[-1, 1]`. -/
theorem int16_quantization_scale_truncate_range (x : ℚ) :
    toInt16 x ≡ ratTrunc (x * 32767) [ZMOD 65536] ∧
    (-32768 ≤ toInt16 x ∧ toInt16 x ≤ 32767) ∧
    (-1 ≤ x → x ≤ 1 → toInt16 x = ratTrunc (x * 32767)) :=
  ⟨toInt16_modeq x, toInt16_mem_range x, fun h1 h2 => toInt16_of_in_range h1 h2⟩

/-- Witness for C5 at `x = 1/2`: the quantized value is the truncation of
`(1/2) * 32767`, namely 16383. -/
theorem int16_quantization_scale_truncate_range_witness :
    toInt16 (1 / 2) = ratTrunc ((1 / 2 : ℚ) * 32767) ∧ toInt16 (1 / 2) = 16383 := by
  have h := (int16_quantization_scale_truncate_range (1 / 2)).2.2
    (by norm_num) (by norm_num)
  refine ⟨h, ?_⟩
  rw [h, ratTrunc, if_pos (by norm_num : (0 : ℚ) ≤ 1 / 2 * 32767)]
  norm_num

/-- Claim C10: the run outcome (output file and printed messages) is a
function of the decoded input, the tempo estimator, and the configuration:
two runs on equal inputs produce equal outcomes. -/
theorem run_deterministic_in_inputs (l₁ l₂ : LoadResult)
    (t₁ t₂ : List ℚ → ℕ → ℚ) (ip₁ ip₂ op₁ op₂ : String)
    (tb₁ tb₂ : ℚ) (ps₁ ps₂ : ℤ) (hl : l₁ = l₂) (ht : t₁ = t₂)
    (hip : ip₁ = ip₂) (hop : op₁ = op₂) (htb : tb₁ = tb₂) (hps : ps₁ = ps₂) :
    process_vocals_for_phonk l₁ t₁ ip₁ op₁ tb₁ ps₁ =
      process_vocals_for_phonk l₂ t₂ ip₂ op₂ tb₂ ps₂ := by
  rw [hl, ht, hip, hop, htb, hps]

/-- Witness for C10 at the script's own configuration values. -/
theorem run_deterministic_in_inputs_witness :
    process_vocals_for_phonk .notFound (fun _ _ => 130) "vocals.mp3"
        "processed_vocals.wav" 65 (-5) =
      process_vocals_for_phonk .notFound (fun _ _ => 130) "vocals.mp3"
        "processed_vocals.wav" 65 (-5) :=
  run_deterministic_in_inputs _ _ _ _ _ _ _ _ _ _ _ _ rfl rfl rfl rfl rfl rfl

/-- Claim C9: the quantization cast wraps modulo 2^16 into the int16 range
rather than saturating: every quantized value is congruent to the
truncated scaled sample modulo 2^16 and lies in the int16 range, and at
the out-of-range sample 3/2 the result is the wrapped value -16386, not
the clipped extreme 32767. -/
theorem quantization_wraps_modulo_not_saturating :
    (∀ x : ℚ, toInt16 x ≡ ratTrunc (x * 32767) [ZMOD 65536] ∧
      -32768 ≤ toInt16 x ∧ toInt16 x ≤ 32767) ∧
    (1 < |(3 / 2 : ℚ)| ∧ toInt16 (3 / 2) = -16386 ∧ toInt16 (3 / 2) ≠ 32767) := by
  have hval : toInt16 (3 / 2) = -16386 := by
    have ht : ratTrunc ((3 / 2 : ℚ) * 32767) = 49150 := by
      rw [ratTrunc, if_pos (by norm_num : (0 : ℚ) ≤ 3 / 2 * 32767)]
      norm_num
    rw [toInt16, ht]
    decide
  refine ⟨fun x => ⟨toInt16_modeq x, (toInt16_mem_range x).1,
    (toInt16_mem_range x).2⟩,
    by rw [show |(3 / 2 : ℚ)| = 3 / 2 from abs_of_nonneg (by norm_num)]; norm_num,
    hval, ?_⟩
  rw [hval]
  decide

/-- Claim C6: every successful run writes a WAV container with exactly one
channel, 2-byte (16-bit) samples all within the int16 range, at the frame
rate the input was decoded at. -/
theorem export_is_mono_16bit_wav_at_input_rate (y : List ℚ) (sr : ℕ)
    (tempoOf : List ℚ → ℕ → ℚ) (ip op : String) (tb : ℚ) (ps : ℤ)
    (ht : 0 < tempoOf y sr) (htb : 0 < tb) :
    ∃ f : OutFile,
      (process_vocals_for_phonk (.decoded y sr) tempoOf ip op tb ps).output
          = some f ∧
      f.format = "wav" ∧ f.channels = 1 ∧ f.sample_width = 2 ∧
      f.frame_rate = sr ∧ f.path = op ∧
      ∀ z ∈ f.data, -32768 ≤ z ∧ z ≤ 32767 := by
  have hr : 0 < stretchRate (tempoOf y sr) tb := div_pos ht htb
  rw [process_decoded_eq y sr tempoOf ip op tb ps hr]
  refine ⟨_, rfl, rfl, rfl, rfl, rfl, rfl, ?_⟩
  intro z hz
  by_cases hp : peak (quantize
      (stretchedSamples y (stretchRate (tempoOf y sr) tb))) = 0
  · rw [normalizeSamples, if_pos hp] at hz
    exact quantize_mem_range _ z hz
  · have hb := abs_le.mp (normalizeSamples_abs_le hp z hz)
    exact ⟨by linarith [hb.1], hb.2⟩

/-- Witness for C6 at a concrete run: a 2-sample buffer at 44100 Hz,
estimated tempo 130, target 65, pitch shift -5. -/
theorem export_is_mono_16bit_wav_at_input_rate_witness :
    (0 : ℚ) < 130 ∧ (0 : ℚ) < 65 ∧
    ∃ f : OutFile,
      (process_vocals_for_phonk (.decoded [1 / 2, -1 / 4] 44100)
          (fun _ _ => 130) "vocals.mp3" "processed_vocals.wav" 65
          (-5)).output = some f ∧
      f.format = "wav" ∧ f.channels = 1 ∧ f.sample_width = 2 ∧
      f.frame_rate = 44100 ∧ f.path = "processed_vocals.wav" ∧
      ∀ z ∈ f.data, -32768 ≤ z ∧ z ≤ 32767 :=
  ⟨by norm_num, by norm_num,
    export_is_mono_16bit_wav_at_input_rate [1 / 2, -1 / 4] 44100
      (fun _ _ => 130) "vocals.mp3" "processed_vocals.wav" 65 (-5)
      (by norm_num) (by norm_num)⟩

/-- Claim C7: when the estimated tempo equals the target BPM (stretch rate
1) and the pitch shift is 0 semitones, both transform steps are no-op
pass-throughs, and the exported data is the re-quantized, re-normalized
identity of the loaded buffer. -/
theorem noop_transforms_requantized_identity (y : List ℚ) (sr : ℕ)
    (tempoOf : List ℚ → ℕ → ℚ) (ip op : String) (tb : ℚ)
    (heq : tempoOf y sr = tb) (htb : 0 < tb) :
    timeStretch y (stretchRate (tempoOf y sr) tb) = some y ∧
    pitchShift ⟨y, sr, 0⟩ 0 = ⟨y, sr, 0⟩ ∧
    ∃ f : OutFile,
      (process_vocals_for_phonk (.decoded y sr) tempoOf ip op tb 0).output
          = some f ∧
      f.data = normalizeSamples (quantize y) := by
  have hrate : stretchRate (tempoOf y sr) tb = 1 := by
    rw [heq, stretchRate, div_self htb.ne']
  refine ⟨?_, ?_, ?_⟩
  · rw [hrate, timeStretch_of_pos _ one_pos, stretchedSamples_one]
  · rw [pitchShift]
    rfl
  · rw [process_decoded_eq y sr tempoOf ip op tb 0 (by rw [hrate]; exact one_pos)]
    exact ⟨_, rfl, by rw [hrate, stretchedSamples_one]⟩

/-- Witness for C7 at a concrete run: a 1-sample buffer with estimated
tempo and target BPM both 65, pitch shift 0. -/
theorem noop_transforms_requantized_identity_witness :
    ((fun (_ : List ℚ) (_ : ℕ) => (65 : ℚ)) [1 / 2] 44100 = 65) ∧
    (0 : ℚ) < 65 ∧
    (timeStretch [1 / 2]
        (stretchRate ((fun (_ : List ℚ) (_ : ℕ) => (65 : ℚ)) [1 / 2] 44100) 65)
      = some [1 / 2] ∧
    pitchShift ⟨[1 / 2], 44100, 0⟩ 0 = ⟨[1 / 2], 44100, 0⟩ ∧
    ∃ f : OutFile,
      (process_vocals_for_phonk (.decoded [1 / 2] 44100)
          (fun _ _ => 65) "vocals.mp3" "processed_vocals.wav" 65 0).output
          = some f ∧
      f.data = normalizeSamples (quantize [1 / 2])) :=
  ⟨rfl, by norm_num,
    noop_transforms_requantized_identity [1 / 2] 44100 (fun _ _ => 65)
      "vocals.mp3" "processed_vocals.wav" 65 rfl (by norm_num)⟩

/-- Claim C8: a silent input buffer runs through the whole pipeline with no
error message and no exception, and the exported data is silent with the
proportionally stretched length. -/
theorem silent_input_yields_silent_stretched_output (y : List ℚ) (sr : ℕ)
    (tempoOf : List ℚ → ℕ → ℚ) (ip op : String) (tb : ℚ) (ps : ℤ)
    (hy : ∀ x ∈ y, x = 0) (ht : 0 < tempoOf y sr) (htb : 0 < tb) :
    ∃ f : OutFile,
      (process_vocals_for_phonk (.decoded y sr) tempoOf ip op tb ps).output
          = some f ∧
      (∀ z ∈ f.data, z = 0) ∧
      f.data.length = stretchedLen y.length (stretchRate (tempoOf y sr) tb) ∧
      (process_vocals_for_phonk (.decoded y sr) tempoOf ip op tb ps).messages
        = [Msg.start, Msg.loaded sr, Msg.tempoEstimate (tempoOf y sr),
           Msg.stretched tb, Msg.shifted ps, Msg.exporting op,
           Msg.complete] ∧
      (process_vocals_for_phonk (.decoded y sr) tempoOf ip op tb
          ps).uncaughtException = false := by
  have hr : 0 < stretchRate (tempoOf y sr) tb := div_pos ht htb
  rw [process_decoded_eq y sr tempoOf ip op tb ps hr]
  have hsil : ∀ x ∈ stretchedSamples y (stretchRate (tempoOf y sr) tb),
      x = 0 := by
    intro x hx
    rw [stretchedSamples] at hx
    obtain ⟨i, _, rfl⟩ := List.mem_map.mp hx
    exact getD_zero_of_forall_zero hy _
  have hq := quantize_silent hsil
  have hn := normalizeSamples_of_silent hq
  refine ⟨_, rfl, ?_, ?_, rfl, rfl⟩
  · rw [hn]
    exact hq
  · rw [hn, quantize_length, stretchedSamples_length]

/-- Witness for C8 at a concrete run: a 4-sample silent buffer with
estimated tempo 130 and target 65 (rate 2) shrinks to 2 silent samples. -/
theorem silent_input_yields_silent_stretched_output_witness :
    (∀ x ∈ ([0, 0, 0, 0] : List ℚ), x = 0) ∧ (0 : ℚ) < 130 ∧ (0 : ℚ) < 65 ∧
    ∃ f : OutFile,
      (process_vocals_for_phonk (.decoded [0, 0, 0, 0] 44100)
          (fun _ _ => 130) "vocals.mp3" "processed_vocals.wav" 65
          (-5)).output = some f ∧
      (∀ z ∈ f.data, z = 0) ∧
      f.data.length = stretchedLen 4 (stretchRate 130 65) :=
  have hy : ∀ x ∈ ([0, 0, 0, 0] : List ℚ), x = 0 := by
    intro x hx
    simp only [List.mem_cons, List.not_mem_nil, or_false] at hx
    rcases hx with h | h | h | h <;> exact h
  ⟨hy, by norm_num, by norm_num, by
    obtain ⟨f, hf, hz, hl, -, -⟩ :=
      silent_input_yields_silent_stretched_output [0, 0, 0, 0] 44100
        (fun _ _ => 130) "vocals.mp3" "processed_vocals.wav" 65 (-5) hy
        (by norm_num) (by norm_num)
    exact ⟨f, hf, hz, hl⟩⟩

/-- Counterexample to claim C2 as stated: the input buffer `[1/65534]` is
non-silent, yet after the normalization step the maximum absolute sample
of the output is 0, not full scale (not even within quantization
rounding): the sample quantizes to 0, so normalization sees a silent
segment and leaves it unchanged. -/
theorem tiny_nonsilent_input_not_full_scale :
    ((1 : ℚ) / 65534 ≠ 0) ∧
    ((process_vocals_for_phonk (.decoded [1 / 65534] 44100) (fun _ _ => 130)
        "vocals.mp3" "processed_vocals.wav" 65 (-5)).output.map
          (fun f => peak f.data)) = some 0 := by
  refine ⟨by norm_num, ?_⟩
  rw [process_decoded_eq _ _ _ _ _ _ _
    (show (0 : ℚ) < stretchRate 130 65 by rw [stretchRate]; norm_num)]
  have hrate : stretchRate 130 65 = 2 := by
    rw [stretchRate]
    norm_num
  have hlen : stretchedLen 1 2 = 1 := by
    rw [stretchedLen, show ((1 : ℕ) : ℚ) / 2 = 1 / 2 by norm_num,
      round_eq, show (1 : ℚ) / 2 + 1 / 2 = 1 by norm_num]
    norm_num
  have hs : stretchedSamples [1 / 65534] 2 = [1 / 65534] := by
    rw [stretchedSamples, show ([(1 : ℚ) / 65534].length) = 1 from rfl,
      hlen, show List.range 1 = [0] by decide, List.map_cons, List.map_nil]
    norm_num
  have h16 : toInt16 (1 / 65534) = 0 := by
    have ht : ratTrunc ((1 / 65534 : ℚ) * 32767) = 0 := by
      rw [ratTrunc, if_pos (by norm_num : (0 : ℚ) ≤ 1 / 65534 * 32767),
        show (1 / 65534 : ℚ) * 32767 = 1 / 2 by norm_num]
      norm_num
    rw [toInt16, ht]
    decide
  have hq : quantize [1 / 65534] = [0] := by
    rw [quantize, List.map_cons, List.map_nil, h16]
  have hnorm : normalizeSamples [(0 : ℤ)] = [0] := by
    rw [normalizeSamples_of_silent]
    intro z hz
    simpa using hz
  rw [show stretchRate ((fun (_ : List ℚ) (_ : ℕ) => (130 : ℚ))
      [1 / 65534] 44100) 65 = 2 from hrate, hs, hq, hnorm]
  rw [Option.map_some']
  norm_num
  decide

/-- Claim C2 (amended): for every input buffer whose int16 quantization is
non-silent, after the normalization step the output's maximum absolute
sample equals full scale (32767) exactly, and no output sample exceeds
full scale.  (The original claim, quantified over all non-silent
floating-point buffers, fails: a non-silent buffer can quantize to
silence, see the counterexample.) -/
theorem normalized_peak_reaches_full_scale (y : List ℚ)
    (h : peak (quantize y) ≠ 0) :
    peak (normalizeSamples (quantize y)) = 32767 ∧
    ∀ z ∈ normalizeSamples (quantize y), |z| ≤ 32767 :=
  ⟨normalizeSamples_peak h, normalizeSamples_abs_le h⟩

/-- Witness for the amended C2 at the full-scale one-sample buffer `[1]`. -/
theorem normalized_peak_reaches_full_scale_witness :
    peak (quantize [1]) ≠ 0 ∧
    peak (normalizeSamples (quantize [1])) = 32767 := by
  have h1 : toInt16 1 = 32767 := by
    have ht : ratTrunc ((1 : ℚ) * 32767) = 32767 := by
      rw [ratTrunc, if_pos (by norm_num : (0 : ℚ) ≤ 1 * 32767)]
      norm_num
    rw [toInt16, ht]
    decide
  have h2 : quantize [1] = [32767] := by
    rw [quantize, List.map_cons, List.map_nil, h1]
  have h3 : peak ([(32767 : ℤ)]) ≠ 0 := by decide
  exact ⟨by rw [h2]; exact h3,
    (normalized_peak_reaches_full_scale [1] (by rw [h2]; exact h3)).1⟩

end Phonk
